import Mathlib

/-!
Shallow embedding of the device health-status engine and the availability
reconstruction engine of this repository
(`openwisp_monitoring/device/base/models.py` and
`openwisp_monitoring/device/availability_wan.py`).

Modelling conventions:
* timestamps are rationals (seconds); Python float arithmetic is idealised
  as exact rational arithmetic, and `round(x, 2)` is modelled by `round`
  on `ℚ` scaled by 100;
* the InfluxDB event store is modelled as a list of points ordered by time
  ascending; the three query shapes used by the code (`LAST` at-or-before,
  `LAST` strictly-before, in-window descending with `LIMIT`) are given list
  semantics;
* fallible time-series calls are modelled with `Except`; a `try/except`
  that swallows the exception becomes a `match` mapping both outcomes to
  `Except.ok`;
* display-string formatting (`_fmt_in_current_tz`, `_fmt_duration_short`)
  is not modelled: interval endpoints are kept as the underlying rational
  timestamps, statuses as booleans (`true` = `"up"`).
-/

namespace OpenwispMonitoring

/-- Device health status values (`AbstractDeviceMonitoring.STATUS`). -/
inductive Status where
  | unknown
  | ok
  | problem
  | critical
  | deactivated
deriving DecidableEq, Repr

/-- `UP_STATUSES = {'ok', 'problem'}` from `models.py`. -/
def UP_STATUSES : List Status := [.ok, .problem]

/-- A point handed to `_timeseries_write` (measurement name, tags, the `up`
field and the retention policy). -/
structure WritePoint where
  name : String
  tags : List (String × String)
  up : Nat
  retention_policy : String
deriving DecidableEq, Repr

/-- An error raised by the time-series backend. -/
structure TsdbError where
  msg : String
deriving DecidableEq, Repr

/-- The point written by `record_device_availability_ts`:
`up = 1 if status in UP_STATUSES else 0`, measurement `device_status`,
tag `pk`, retention policy `autogen` (`AVAILABILITY_RP`). -/
def availability_point (device_id : String) (status : Status) : WritePoint :=
  { name := "device_status"
  , tags := [("pk", device_id)]
  , up := if status ∈ UP_STATUSES then 1 else 0
  , retention_policy := "autogen" }

/-- `record_device_availability_ts`: performs the time-series write inside a
`try/except Exception: pass`, so both outcomes of the write are mapped to a
successful return. -/
def record_device_availability_ts (writeFn : WritePoint → Except TsdbError Unit)
    (device_id : String) (status : Status) : Except TsdbError Unit :=
  match writeFn (availability_point device_id status) with
  | .ok _ => .ok ()
  | .error _ => .ok ()

/-- The point written by `record_wan_link_status` (`availability_wan.py`):
measurement `wan_link_status`, tags `pk` and `ifname`,
`up = 1 if is_up else 0`, retention policy `autogen`. -/
def wan_point (device_id ifname : String) (is_up : Bool) : WritePoint :=
  { name := "wan_link_status"
  , tags := [("pk", device_id), ("ifname", ifname)]
  , up := if is_up then 1 else 0
  , retention_policy := "autogen" }

/-- `record_wan_link_status`: the write is wrapped in
`try/except Exception: pass`, so both outcomes are mapped to success. -/
def record_wan_link_status (writeFn : WritePoint → Except TsdbError Unit)
    (device_id ifname : String) (is_up : Bool) : Except TsdbError Unit :=
  match writeFn (wan_point device_id ifname is_up) with
  | .ok _ => .ok ()
  | .error _ => .ok ()

/-- A health metric as seen by `threshold_crossed`
(`key`, `field_name`, `is_healthy`). -/
structure Metric where
  key : String
  field_name : String
  is_healthy : Bool
deriving DecidableEq, Repr

/-- One entry of the `CRITICAL_DEVICE_METRICS` configuration. -/
structure CriticalMetricCfg where
  key : String
  field_name : String
deriving DecidableEq, Repr

/-- `AbstractDeviceMonitoring.is_metric_critical`: scans the configured
critical set and returns `True` on the first `(key, field_name)` match. -/
def is_metric_critical (cfg : List CriticalMetricCfg) (metric : Metric) : Bool :=
  cfg.any fun critical =>
    metric.key == critical.key && metric.field_name == critical.field_name

/-- The `related_status` loop of `threshold_crossed`: starts from the
accumulator (`'ok'` at the call site); a critical member returns
`'critical'` immediately (`break`), any other member sets the running value
to `'problem'` and continues. -/
def related_status_loop (cfg : List CriticalMetricCfg) :
    List Metric → Status → Status
  | [], related_status => related_status
  | m :: rest, _ =>
    if is_metric_critical cfg m then .critical
    else related_status_loop cfg rest .problem

/-- `related_metrics.filter(is_healthy=False)`: the unhealthy related
metrics, in query order. -/
def unhealthy_related (related : List Metric) : List Metric :=
  related.filter fun m => m.is_healthy == false

/-- The status decision of `threshold_crossed` (the value passed to
`monitoring.update_status`): initial `status` from the triggering metric's
health, `related_status` from the unhealthy related metrics, then the
`if/elif` combination chain. -/
def threshold_crossed (cfg : List CriticalMetricCfg) (metric : Metric)
    (related : List Metric) : Status :=
  let status := if metric.is_healthy then Status.ok else Status.problem
  let related_status := related_status_loop cfg (unhealthy_related related) .ok
  if metric.is_healthy = true ∧ related_status = .problem then .problem
  else if metric.is_healthy = true ∧ related_status = .critical then .critical
  else if metric.is_healthy = false ∧
      (is_metric_critical cfg metric = true ∨ related_status = .critical) then .critical
  else status

/-- Observable state of one `DeviceMonitoring` record together with its
device row and the signals emitted so far: `save_count` counts
`self.save()` calls, `device_save_count` counts
`self.device.save(update_fields=['management_ip'])` calls, `signals`
records the `health_status_changed.send` payloads in order. -/
structure DMState where
  status : Status
  management_ip : Option String
  save_count : Nat
  device_save_count : Nat
  signals : List Status
deriving DecidableEq, Repr

/-- `AbstractDeviceMonitoring.update_status`: early return when the status
is unchanged; otherwise persist, clear `management_ip` when the new status
is `critical` and `AUTO_CLEAR_MANAGEMENT_IP` is enabled, then emit
`health_status_changed`. -/
def update_status (auto_clear_management_ip : Bool) (s : DMState)
    (value : Status) : DMState :=
  if s.status = value then s
  else
    let s1 : DMState := { s with status := value, save_count := s.save_count + 1 }
    let s2 : DMState :=
      if s1.status = .critical ∧ auto_clear_management_ip = true then
        { s1 with management_ip := none
                , device_save_count := s1.device_save_count + 1 }
      else s1
    { s2 with signals := s2.signals ++ [value] }

/-- One stored point of the `device_status` measurement. -/
structure Point where
  time : ℚ
  up : Nat
deriving DecidableEq, Repr

/-- `WHERE time >= start AND time < end ORDER BY time ASC` over the
ascending store. -/
def inWindow (db : List Point) (startT endT : ℚ) : List Point :=
  db.filter fun p => decide (startT ≤ p.time ∧ p.time < endT)

/-- `SELECT LAST("up") ... WHERE time <= t` over the ascending store. -/
def lastLE (db : List Point) (t : ℚ) : Option Point :=
  (db.filter fun p => decide (p.time ≤ t)).getLast?

/-- `SELECT LAST("up") ... WHERE time < t` over the ascending store. -/
def lastLT (db : List Point) (t : ℚ) : Option Point :=
  (db.filter fun p => decide (p.time < t)).getLast?

/-- `WHERE time >= start AND time < end ORDER BY time DESC LIMIT n`. -/
def queryDesc (db : List Point) (startT endT : ℚ) (maxEvents : Nat) : List Point :=
  ((inWindow db startT endT).reverse).take maxEvents

/-- `cur_up = int(prev[0]['up']) if prev ... else 0`: the state at window
start from the `LAST ... time <= start` query. -/
def cur_up_start (db : List Point) (startT : ℚ) : Nat :=
  match lastLE db startT with
  | some p => p.up
  | none => 0

/-- `end_up_tsdb`: the `LAST ... time < end` query, defaulting to `cur_up`. -/
def end_up_tsdb (db : List Point) (endT : ℚ) (cur : Nat) : Nat :=
  match lastLT db endT with
  | some p => p.up
  | none => cur

/-- One entry of the reconstruction's `events` list; `status` is `true` for
`"up"`, `etype` is `"Boundary"` or `"Flip"`. -/
structure AvailEvent where
  time : ℚ
  status : Bool
  synthetic : Bool
  etype : String
deriving DecidableEq, Repr

/-- The flip loop of `get_device_availability`: walking the ascending rows,
append a `Flip` event and update the running value exactly when
`int(r['up']) != cur_up`.  Returns the emitted events and the final running
value. -/
def flip_events (cur : Nat) : List Point → List AvailEvent × Nat
  | [] => ([], cur)
  | p :: rest =>
    if p.up ≠ cur then
      let t := flip_events p.up rest
      (⟨p.time, decide (p.up = 1), false, "Flip"⟩ :: t.1, t.2)
    else flip_events cur rest

/-- One entry of the reconstruction's `timeline`; the source's `end` key is
called `stop` (`end` is a Lean keyword). -/
structure TimelineInterval where
  start : ℚ
  stop : ℚ
  status : Bool
deriving DecidableEq, Repr

/-- The timeline loop: one interval per adjacent pair of events, carrying
the left event's status. -/
def build_timeline : List AvailEvent → List TimelineInterval
  | a :: b :: rest => ⟨a.time, b.time, a.status⟩ :: build_timeline (b :: rest)
  | _ => []

/-- One entry of `_build_friendly_intervals(...)["intervals"]` (the
human-readable duration string and label are display-only and not
modelled). -/
structure FriendlyInterval where
  start : ℚ
  stop : ℚ
  status : Bool
  duration_seconds : ℚ
deriving DecidableEq, Repr

/-- The interval loop of `_build_friendly_intervals`: per adjacent pair of
events, the left status and `delta = max(0.0, end - start)`. -/
def build_friendly_intervals : List AvailEvent → List FriendlyInterval
  | a :: b :: rest =>
    ⟨a.time, b.time, a.status, max 0 (b.time - a.time)⟩ ::
      build_friendly_intervals (b :: rest)
  | _ => []

/-- Python's `round(q, 2)` modelled on rationals. -/
def round2 (q : ℚ) : ℚ := ((round (q * 100) : ℤ) : ℚ) / 100

/-- The accumulation loop of `_uptime_pct_from_events`: for each point, add
the elapsed seconds when the state in force is up, then adopt the point's
value and time.  Returns `(cur_up, t, up_seconds)`. -/
def uptime_loop : Nat → ℚ → ℚ → List Point → Nat × ℚ × ℚ
  | cur, t, acc, [] => (cur, t, acc)
  | cur, t, acc, p :: rest =>
    uptime_loop p.up p.time (if cur = 1 then acc + (p.time - t) else acc) rest

/-- `_uptime_pct_from_events` over the list-modelled store: degenerate
windows return `0.0` before any query; otherwise the prior-state query, the
unlimited ascending in-window query, the accumulation loop, the final
segment to `end`, and `round((up_seconds / total) * 100.0, 2)`. -/
def uptime_pct_from_events (db : List Point) (start_dt end_dt : ℚ) : ℚ :=
  if start_dt ≥ end_dt then 0
  else
    let cur := cur_up_start db start_dt
    let events := inWindow db start_dt end_dt
    let r := uptime_loop cur start_dt 0 events
    let up_seconds := if r.1 = 1 then r.2.2 + (end_dt - r.2.1) else r.2.2
    let total := end_dt - start_dt
    if 0 < total then round2 (up_seconds / total * 100) else 0

/-- The value returned by `get_device_availability` (window echo and other
display strings omitted); `uptime_percent = none` models the `None` set
when the uptime computation fails. -/
structure AvailResult where
  events : List AvailEvent
  timeline : List TimelineInterval
  friendly_intervals : List FriendlyInterval
  uptime_percent : Option ℚ
deriving DecidableEq, Repr

/-- The `start_dt >= end_dt` early-return value of
`get_device_availability` (with `include_uptime=True`). -/
def emptyAvailResult : AvailResult :=
  { events := []
  , timeline := []
  , friendly_intervals := []
  , uptime_percent := some 0 }

/-- The body of `get_device_availability` after its three queries: the
start boundary from `cur_up`, the flips over the reversed descending rows,
the end boundary from `override_end_status` or `end_up_tsdb`, then the
timeline and friendly intervals. -/
def build_avail_result (prev rows_desc latest : List Point)
    (start_dt end_dt : ℚ) (override_end_status : Option Bool)
    (uptime : Option ℚ) : AvailResult :=
  let cur := match prev.head? with | some p => p.up | none => 0
  let rows := rows_desc.reverse
  let end_up := match latest.head? with | some p => p.up | none => cur
  let fe := flip_events cur rows
  let end_status :=
    match override_end_status with
    | some b => b
    | none => decide (end_up = 1)
  let events :=
    ⟨start_dt, decide (cur = 1), true, "Boundary"⟩ :: fe.1
      ++ [⟨end_dt, end_status, true, "Boundary"⟩]
  { events := events
  , timeline := build_timeline events
  , friendly_intervals := build_friendly_intervals events
  , uptime_percent := uptime }

/-- `get_device_availability` over the list-modelled store
(`include_uptime=True`): the degenerate-window early return, the
`LAST ... time <= start` query, the descending limited in-window query, the
`LAST ... time < end` query, and the result assembly. -/
def get_device_availability (db : List Point) (start_dt end_dt : ℚ)
    (max_events : Nat) (override_end_status : Option Bool) : AvailResult :=
  if start_dt ≥ end_dt then emptyAvailResult
  else
    build_avail_result (lastLE db start_dt).toList
      (queryDesc db start_dt end_dt max_events)
      (lastLT db end_dt).toList
      start_dt end_dt override_end_status
      (some (uptime_pct_from_events db start_dt end_dt))

/-- `get_device_availability` with the outcome of each time-series call
passed explicitly: the three primary queries are outside any `try`, so
their failures propagate (monadic bind); the `_uptime_pct_from_events` call
is inside `try/except`, so its failure only nulls `uptime_percent`. -/
def get_device_availability_e
    (prevQ eventsQ latestQ : Except TsdbError (List Point))
    (uptimeQ : Except TsdbError ℚ)
    (start_dt end_dt : ℚ) (override_end_status : Option Bool) :
    Except TsdbError AvailResult :=
  if start_dt ≥ end_dt then .ok emptyAvailResult
  else do
    let prev ← prevQ
    let rows_desc ← eventsQ
    let latest ← latestQ
    pure (build_avail_result prev rows_desc latest start_dt end_dt
      override_end_status
      (match uptimeQ with | .ok v => some v | .error _ => none))

/-- The event store's ordering assumption: points are stored by time
ascending (`AvailabilityEvent` ordering, spec section 3). -/
def DbSorted (db : List Point) : Prop :=
  List.Pairwise (fun a b => a.time < b.time) db

/-- The `end_status` computed at lines 319-322 of `models.py`: the
caller-supplied `override_end_status` if it is `'up'` or `'down'`, else
the latest value recorded strictly before `end`. -/
def avail_end_status (db : List Point) (s e : ℚ) (ov : Option Bool) : Bool :=
  match ov with
  | some b => b
  | none => decide (end_up_tsdb db e (cur_up_start db s) = 1)

/-! ## Helper lemmas -/

theorem update_status_noop (ac : Bool) (s : DMState) (S : Status)
    (h : s.status = S) : update_status ac s S = s := by
  simp [update_status, h]

theorem update_status_status (ac : Bool) (s : DMState) (S : Status) :
    (update_status ac s S).status = S := by
  by_cases h : s.status = S
  · simp [update_status, h]
  · simp only [update_status, if_neg h]
    split <;> simp

theorem related_status_loop_critical_iff (cfg : List CriticalMetricCfg)
    (l : List Metric) :
    ∀ acc : Status,
      (related_status_loop cfg l acc = .critical ↔
        ((∃ m ∈ l, is_metric_critical cfg m = true) ∨
          (l = [] ∧ acc = .critical))) := by
  induction l with
  | nil => intro acc; simp [related_status_loop]
  | cons m rest ih =>
    intro acc
    by_cases hc : is_metric_critical cfg m = true
    · simp [related_status_loop, hc]
    · simp only [related_status_loop, if_neg hc]
      rw [ih .problem]
      simp [hc]

theorem related_status_loop_problem (cfg : List CriticalMetricCfg) :
    ∀ (l : List Metric) (acc : Status), l ≠ [] →
      (∀ m ∈ l, is_metric_critical cfg m = false) →
      related_status_loop cfg l acc = .problem := by
  intro l
  induction l with
  | nil => simp
  | cons m rest ih =>
    intro acc _ hall
    have hc : is_metric_critical cfg m = false := hall m (by simp)
    simp only [related_status_loop, if_neg (by simp [hc] :
      ¬ is_metric_critical cfg m = true)]
    cases rest with
    | nil => rfl
    | cons b bs =>
      exact ih _ (by simp) fun x hx => hall x (List.mem_cons_of_mem _ hx)

theorem reverse_take_reverse {α : Type _} (l : List α) (n : Nat) :
    (l.reverse.take n).reverse = l.drop (l.length - n) := by
  rw [List.reverse_take]
  simp

theorem flip_events_snd (l : List Point) :
    ∀ cur : Nat,
      (flip_events cur l).2 = ((l.getLast?).map Point.up).getD cur := by
  induction l with
  | nil => intro cur; simp [flip_events]
  | cons p rest ih =>
    intro cur
    by_cases hp : p.up = cur
    · rw [show flip_events cur (p :: rest) = flip_events cur rest by
        simp [flip_events, hp], ih cur]
      cases rest with
      | nil => simp [hp]
      | cons b bs => rw [List.getLast?_cons_cons]
    · rw [show (flip_events cur (p :: rest)).2 = (flip_events p.up rest).2 by
        simp [flip_events, hp], ih p.up]
      cases rest with
      | nil => simp
      | cons b bs =>
        rw [List.getLast?_cons_cons]
        cases hgl : (b :: bs).getLast? with
        | none => simp at hgl
        | some q => simp [hgl]

theorem flip_events_fst_nil (l : List Point) :
    ∀ cur : Nat, (flip_events cur l).1 = [] → (flip_events cur l).2 = cur := by
  induction l with
  | nil => intro cur _; rfl
  | cons p rest ih =>
    intro cur h
    by_cases hp : p.up = cur
    · rw [show flip_events cur (p :: rest) = flip_events cur rest by
        simp [flip_events, hp]] at h ⊢
      exact ih cur h
    · rw [show flip_events cur (p :: rest) =
          (⟨p.time, decide (p.up = 1), false, "Flip"⟩ ::
            (flip_events p.up rest).1, (flip_events p.up rest).2) by
        simp [flip_events, hp]] at h
      exact absurd h (by simp)

theorem flip_events_const (l : List Point) :
    ∀ cur : Nat, (∀ p ∈ l, p.up = cur) → flip_events cur l = ([], cur) := by
  induction l with
  | nil => intro cur _; rfl
  | cons p rest ih =>
    intro cur h
    have hp : p.up = cur := h p (by simp)
    rw [show flip_events cur (p :: rest) = flip_events cur rest by
      simp [flip_events, hp]]
    exact ih cur fun x hx => h x (List.mem_cons_of_mem _ hx)

theorem flip_events_last_status (l : List Point) :
    ∀ cur : Nat, (flip_events cur l).1 ≠ [] →
      ((flip_events cur l).1.getLast?.map AvailEvent.status) =
        some (decide ((flip_events cur l).2 = 1)) := by
  induction l with
  | nil => intro cur h; exact absurd rfl h
  | cons p rest ih =>
    intro cur h
    by_cases hp : p.up = cur
    · rw [show flip_events cur (p :: rest) = flip_events cur rest by
        simp [flip_events, hp]] at h ⊢
      exact ih cur h
    · rw [show flip_events cur (p :: rest) =
          (⟨p.time, decide (p.up = 1), false, "Flip"⟩ ::
            (flip_events p.up rest).1, (flip_events p.up rest).2) by
        simp [flip_events, hp]]
      cases hfr : (flip_events p.up rest).1 with
      | nil =>
        have := flip_events_fst_nil rest p.up hfr
        simp [this]
      | cons x xs =>
        rw [List.getLast?_cons_cons]
        have := ih p.up (by rw [hfr]; simp)
        rw [hfr] at this
        exact this

theorem flip_events_times_sublist (l : List Point) :
    ∀ cur : Nat,
      ((flip_events cur l).1.map AvailEvent.time).Sublist
        (l.map Point.time) := by
  induction l with
  | nil => intro cur; simp [flip_events]
  | cons p rest ih =>
    intro cur
    by_cases hp : p.up = cur
    · rw [show flip_events cur (p :: rest) = flip_events cur rest by
        simp [flip_events, hp]]
      exact (ih cur).trans (List.sublist_cons_self _ _)
    · rw [show flip_events cur (p :: rest) =
          (⟨p.time, decide (p.up = 1), false, "Flip"⟩ ::
            (flip_events p.up rest).1, (flip_events p.up rest).2) by
        simp [flip_events, hp]]
      simpa using List.Sublist.cons₂ p.time (ih p.up)

theorem build_timeline_chain :
    ∀ evs : List AvailEvent,
      List.Chain' (fun a b => a.stop = b.start) (build_timeline evs)
  | [] => by simp [build_timeline]
  | [_] => by simp [build_timeline]
  | a :: b :: rest => by
    have ih := build_timeline_chain (b :: rest)
    cases rest with
    | nil => simp [build_timeline]
    | cons c rrest =>
      rw [show build_timeline (a :: b :: c :: rrest) =
          ⟨a.time, b.time, a.status⟩ :: build_timeline (b :: c :: rrest) from
        rfl]
      rw [show build_timeline (b :: c :: rrest) =
          ⟨b.time, c.time, b.status⟩ :: build_timeline (c :: rrest) from rfl]
        at ih ⊢
      exact List.chain'_cons.mpr ⟨rfl, ih⟩

theorem build_timeline_start_le_stop :
    ∀ evs : List AvailEvent,
      List.Chain' (fun a b => a.time ≤ b.time) evs →
      ∀ iv ∈ build_timeline evs, iv.start ≤ iv.stop
  | [] => by simp [build_timeline]
  | [_] => by simp [build_timeline]
  | a :: b :: rest => by
    intro hc iv hiv
    rw [show build_timeline (a :: b :: rest) =
        ⟨a.time, b.time, a.status⟩ :: build_timeline (b :: rest) from rfl]
      at hiv
    rcases List.mem_cons.mp hiv with h | h
    · subst h
      exact (List.chain'_cons.mp hc).1
    · exact build_timeline_start_le_stop (b :: rest)
        (List.chain'_cons.mp hc).2 iv h

theorem build_timeline_ne_nil (a b : AvailEvent) (l : List AvailEvent) :
    build_timeline (a :: b :: l) ≠ [] := by
  rw [show build_timeline (a :: b :: l) =
      ⟨a.time, b.time, a.status⟩ :: build_timeline (b :: l) from rfl]
  simp

theorem getLast?_cons_ne_nil {α : Type _} (x : α) (t : List α)
    (h : t ≠ []) : (x :: t).getLast? = t.getLast? := by
  cases t with
  | nil => exact absurd rfl h
  | cons b bs => exact List.getLast?_cons_cons

theorem build_timeline_getLast :
    ∀ (l : List AvailEvent) (a z : AvailEvent),
      (build_timeline (a :: l ++ [z])).getLast? =
        some ⟨(l.getLastD a).time, z.time, (l.getLastD a).status⟩ := by
  intro l
  induction l with
  | nil => intro a z; simp [build_timeline]
  | cons b rest ih =>
    intro a z
    simp only [List.cons_append]
    rw [show build_timeline (a :: b :: (rest ++ [z])) =
        ⟨a.time, b.time, a.status⟩ ::
          build_timeline (b :: (rest ++ [z])) from rfl]
    rw [getLast?_cons_ne_nil _ _ (by
      cases rest with
      | nil => simpa using build_timeline_ne_nil b z []
      | cons c rr => simpa using build_timeline_ne_nil b c (rr ++ [z]))]
    have ihb := ih b z
    simp only [List.cons_append] at ihb
    rw [ihb, show (b :: rest).getLastD a = rest.getLastD b from
      List.getLastD_cons a b rest]

theorem lastLT_of_inWindow_ne_nil (db : List Point) (s e : ℚ)
    (hs : DbSorted db) (hne : inWindow db s e ≠ []) :
    lastLT db e = (inWindow db s e).getLast? := by
  induction db using List.reverseRecOn with
  | nil => exact absurd rfl hne
  | append_singleton l a ih =>
    have hsl : DbSorted l := (List.pairwise_append.mp hs).1
    have hmax : ∀ x ∈ l, x.time < a.time := fun x hx =>
      (List.pairwise_append.mp hs).2.2 x hx a (by simp)
    by_cases h1 : a.time < e
    · by_cases h2 : s ≤ a.time
      · unfold lastLT inWindow
        rw [List.filter_append, List.filter_append]
        have hfa : List.filter (fun p => decide (p.time < e)) [a] = [a] := by
          simp [h1]
        have hga : List.filter
            (fun p => decide (s ≤ p.time ∧ p.time < e)) [a] = [a] := by
          simp [h1, h2]
        rw [hfa, hga, List.getLast?_concat, List.getLast?_concat]
      · exfalso
        have hwin : inWindow (l ++ [a]) s e = inWindow l s e := by
          unfold inWindow
          rw [List.filter_append]
          have : List.filter
              (fun p => decide (s ≤ p.time ∧ p.time < e)) [a] = [] := by
            simp [h2]
          rw [this, List.append_nil]
        rw [hwin] at hne
        obtain ⟨p, hp⟩ := List.exists_mem_of_ne_nil _ hne
        have hmem := List.mem_filter.mp hp
        have hps : s ≤ p.time := (of_decide_eq_true hmem.2).1
        have := hmax p hmem.1
        have : p.time < s := lt_of_lt_of_le this (le_of_not_le h2)
        exact absurd hps (not_le.mpr this)
    · have hwin : inWindow (l ++ [a]) s e = inWindow l s e := by
        unfold inWindow
        rw [List.filter_append]
        have : List.filter
            (fun p => decide (s ≤ p.time ∧ p.time < e)) [a] = [] := by
          simp; intro _; exact le_of_not_lt h1
        rw [this, List.append_nil]
      have hlt : lastLT (l ++ [a]) e = lastLT l e := by
        unfold lastLT
        rw [List.filter_append]
        have : List.filter (fun p => decide (p.time < e)) [a] = [] := by
          simp [h1]
        rw [this, List.append_nil]
      rw [hwin, hlt]
      rw [hwin] at hne
      exact ih hsl hne

theorem lastLT_of_inWindow_nil (db : List Point) (s e : ℚ)
    (h : inWindow db s e = []) (hlt : s < e) :
    lastLT db e = lastLE db s := by
  unfold lastLT lastLE
  have hall := List.filter_eq_nil_iff.mp h
  have : ∀ p ∈ db, (decide (p.time < e)) = (decide (p.time ≤ s)) := by
    intro p hp
    have hnw : ¬ (s ≤ p.time ∧ p.time < e) := by
      intro hw
      exact hall p hp (by simpa using hw)
    by_cases hps : p.time ≤ s
    · simp [hps, lt_of_le_of_lt hps hlt]
    · have h1 : ¬ p.time < e := fun hlt2 =>
        hnw ⟨le_of_lt (not_le.mp hps), hlt2⟩
      simp [hps, h1]

  rw [List.filter_congr this]

theorem rows_getLast (db : List Point) (s e : ℚ) (n : Nat) (hn : 1 ≤ n) :
    ((queryDesc db s e n).reverse).getLast? = (inWindow db s e).getLast? := by
  unfold queryDesc
  rw [List.getLast?_reverse]
  cases hW : (inWindow db s e).reverse with
  | nil =>
    have : inWindow db s e = [] := by
      simpa using congrArg List.reverse hW
    simp [this]
  | cons x xs =>
    obtain ⟨m, rfl⟩ : ∃ m, n = m + 1 :=
      ⟨n - 1, (Nat.succ_pred_eq_of_pos hn).symm⟩
    rw [show (x :: xs).take (m + 1) = x :: xs.take m from rfl]
    rw [← List.head?_reverse, hW]
    rfl

theorem get_device_availability_events_eq (db : List Point) (s e : ℚ)
    (n : Nat) (ov : Option Bool) (h : ¬ s ≥ e) :
    (get_device_availability db s e n ov).events =
      ⟨s, decide (cur_up_start db s = 1), true, "Boundary"⟩ ::
        (flip_events (cur_up_start db s) ((queryDesc db s e n).reverse)).1 ++
        [⟨e, avail_end_status db s e ov, true, "Boundary"⟩] := by
  simp only [get_device_availability, if_neg h, build_avail_result,
    avail_end_status]
  cases hLE : lastLE db s <;> cases hLT : lastLT db e <;> cases ov <;>
    simp [cur_up_start, end_up_tsdb, hLE, hLT]

theorem get_device_availability_timeline_eq (db : List Point) (s e : ℚ)
    (n : Nat) (ov : Option Bool) (h : ¬ s ≥ e) :
    (get_device_availability db s e n ov).timeline =
      build_timeline ((get_device_availability db s e n ov).events) := by
  simp only [get_device_availability, if_neg h]
  rfl

theorem fin_eq_end_up (db : List Point) (s e : ℚ) (n : Nat)
    (hs : DbSorted db) (hlt : s < e) (hn : 1 ≤ n) :
    (flip_events (cur_up_start db s) ((queryDesc db s e n).reverse)).2 =
      end_up_tsdb db e (cur_up_start db s) := by
  rw [flip_events_snd, rows_getLast db s e n hn]
  cases hW : (inWindow db s e).getLast? with
  | none =>
    have hnil : inWindow db s e = [] := by
      cases hI : inWindow db s e with
      | nil => rfl
      | cons x xs => rw [hI] at hW; simp [List.getLast?_concat] at hW
    unfold end_up_tsdb cur_up_start
    rw [lastLT_of_inWindow_nil db s e hnil hlt]
    cases lastLE db s <;> simp
  | some q =>
    have hne : inWindow db s e ≠ [] := by
      intro hc
      rw [hc] at hW
      simp at hW
    unfold end_up_tsdb
    rw [lastLT_of_inWindow_ne_nil db s e hs hne, hW]
    simp

theorem uptime_loop_bounds (l : List Point) :
    ∀ (cur : Nat) (t acc : ℚ),
      (∀ p ∈ l, t ≤ p.time) →
      List.Pairwise (fun a b : Point => a.time ≤ b.time) l →
      acc ≤ (uptime_loop cur t acc l).2.2 ∧
      (uptime_loop cur t acc l).2.2 - acc ≤
        (uptime_loop cur t acc l).2.1 - t ∧
      t ≤ (uptime_loop cur t acc l).2.1 ∧
      ((uptime_loop cur t acc l).2.1 = t ∨
        ∃ p ∈ l, (uptime_loop cur t acc l).2.1 = p.time) := by
  induction l with
  | nil =>
    intro cur t acc _ _
    exact ⟨le_refl _, by simp [uptime_loop], le_refl _, Or.inl rfl⟩
  | cons p rest ih =>
    intro cur t acc hmem hpw
    have htp : t ≤ p.time := hmem p (by simp)
    have hrest : ∀ q ∈ rest, p.time ≤ q.time := fun q hq =>
      (List.pairwise_cons.mp hpw).1 q hq
    have hpw' := (List.pairwise_cons.mp hpw).2
    rw [show uptime_loop cur t acc (p :: rest) =
        uptime_loop p.up p.time
          (if cur = 1 then acc + (p.time - t) else acc) rest from rfl]
    obtain ⟨i1, i2, i3, i4⟩ :=
      ih p.up p.time (if cur = 1 then acc + (p.time - t) else acc) hrest hpw'
    have h1 : acc ≤ (if cur = 1 then acc + (p.time - t) else acc) := by
      split
      · linarith
      · exact le_refl _
    have h2 : (if cur = 1 then acc + (p.time - t) else acc) - acc ≤
        p.time - t := by
      split
      · linarith
      · linarith
    refine ⟨h1.trans i1, by linarith, htp.trans i3, ?_⟩
    rcases i4 with h | ⟨q, hq, hqt⟩
    · exact Or.inr ⟨p, by simp, h⟩
    · exact Or.inr ⟨q, List.mem_cons_of_mem _ hq, hqt⟩

/-! ## Claim theorems -/

/-- Claim C1: the status decision of `threshold_crossed` follows the decide
table: `related_status` is `ok` on an empty unhealthy set, `critical`
exactly when some unhealthy related metric is classified critical, and
`problem` otherwise; the combination rules map (trigger health,
`related_status`, trigger criticality) to the final status, and any
critical unhealthy related metric forces `critical` regardless of the
trigger's health. -/
theorem threshold_crossed_decide_table (cfg : List CriticalMetricCfg)
    (metric : Metric) (related : List Metric) :
    (unhealthy_related related = [] →
      related_status_loop cfg (unhealthy_related related) .ok = .ok) ∧
    (related_status_loop cfg (unhealthy_related related) .ok = .critical ↔
      ∃ m ∈ unhealthy_related related, is_metric_critical cfg m = true) ∧
    (unhealthy_related related ≠ [] →
      (∀ m ∈ unhealthy_related related, is_metric_critical cfg m = false) →
      related_status_loop cfg (unhealthy_related related) .ok = .problem) ∧
    (metric.is_healthy = true →
      related_status_loop cfg (unhealthy_related related) .ok = .ok →
      threshold_crossed cfg metric related = .ok) ∧
    (metric.is_healthy = true →
      related_status_loop cfg (unhealthy_related related) .ok = .problem →
      threshold_crossed cfg metric related = .problem) ∧
    (metric.is_healthy = true →
      related_status_loop cfg (unhealthy_related related) .ok = .critical →
      threshold_crossed cfg metric related = .critical) ∧
    (metric.is_healthy = false →
      (is_metric_critical cfg metric = true ∨
        related_status_loop cfg (unhealthy_related related) .ok = .critical) →
      threshold_crossed cfg metric related = .critical) ∧
    (metric.is_healthy = false → is_metric_critical cfg metric = false →
      related_status_loop cfg (unhealthy_related related) .ok ≠ .critical →
      threshold_crossed cfg metric related = .problem) ∧
    ((∃ m ∈ unhealthy_related related, is_metric_critical cfg m = true) →
      threshold_crossed cfg metric related = .critical) := by
  refine ⟨fun h => by rw [h]; rfl,
    by rw [related_status_loop_critical_iff cfg _ .ok]; simp,
    related_status_loop_problem cfg _ .ok,
    fun hh hrs => ?_, fun hh hrs => ?_, fun hh hrs => ?_,
    fun hh hor => ?_, fun hh hc hrs => ?_, fun hex => ?_⟩
  · simp [threshold_crossed, hh, hrs]
  · simp [threshold_crossed, hh, hrs]
  · simp [threshold_crossed, hh, hrs]
  · rcases hor with h1 | h1 <;> simp [threshold_crossed, hh, h1]
  · simp [threshold_crossed, hh, hc, hrs]
  · have hcrit : related_status_loop cfg (unhealthy_related related) .ok =
        .critical :=
      (related_status_loop_critical_iff cfg _ .ok).mpr (Or.inl hex)
    by_cases hh : metric.is_healthy = true <;>
      simp [threshold_crossed, hh, hcrit]

theorem threshold_crossed_decide_table_witness :
    threshold_crossed [⟨"ping", "reachable"⟩] ⟨"cpu", "usage", true⟩
      [⟨"mem", "percent", false⟩, ⟨"ping", "reachable", false⟩] =
      .critical :=
  (threshold_crossed_decide_table [⟨"ping", "reachable"⟩]
    ⟨"cpu", "usage", true⟩
    [⟨"mem", "percent", false⟩, ⟨"ping", "reachable", false⟩]).2.2.2.2.2.2.2.2
    (by decide)

/-- Claim C7: the availability point written on a health-status change carries
`up = 1` exactly when the new status is `ok` or `problem`, and `up = 0`
for `critical`, `unknown` and `deactivated`. -/
theorem availability_event_up_mapping (device_id : String) (status : Status) :
    ((availability_point device_id status).up = 1 ↔
      (status = .ok ∨ status = .problem)) ∧
    ((availability_point device_id status).up = 0 ↔
      (status = .critical ∨ status = .unknown ∨ status = .deactivated)) := by
  cases status <;> simp [availability_point, UP_STATUSES]

theorem availability_event_up_mapping_witness :
    ((availability_point "d1" .problem).up = 1 ↔
      (Status.problem = .ok ∨ Status.problem = .problem)) ∧
    ((availability_point "d1" .problem).up = 0 ↔
      (Status.problem = .critical ∨ Status.problem = .unknown ∨
        Status.problem = .deactivated)) :=
  availability_event_up_mapping "d1" .problem

/-- Claim C3: `update_status` is a no-op (no write, no management-IP change, no
signal) when the status is unchanged; hence the second of two identical
calls does nothing and exactly one `health_status_changed` signal is
emitted by the first call. -/
theorem update_status_idempotent (ac : Bool) (s : DMState) (S : Status) :
    (s.status = S → update_status ac s S = s) ∧
    (update_status ac (update_status ac s S) S = update_status ac s S) ∧
    (s.status ≠ S →
      (update_status ac s S).signals = s.signals ++ [S]) := by
  refine ⟨fun h => update_status_noop ac s S h,
    update_status_noop ac _ S (update_status_status ac s S), fun h => ?_⟩
  simp only [update_status, if_neg h]
  split <;> simp

theorem update_status_idempotent_witness :
    (update_status true ⟨.ok, some "10.0.0.1", 0, 0, []⟩ .critical).signals =
      ([] : List Status) ++ [Status.critical] :=
  (update_status_idempotent true ⟨.ok, some "10.0.0.1", 0, 0, []⟩
    .critical).2.2 (by decide)

/-- Claim C9: `update_status` clears the management IP only on a transition into
`critical` with the auto-clear flag enabled; a repeated `critical` call
changes nothing, and a transition into a non-critical status never touches
the management IP or issues a device save. -/
theorem update_status_management_ip_frame (ac : Bool) (s : DMState)
    (S : Status) :
    (s.status = .critical → update_status ac s .critical = s) ∧
    (S ≠ .critical →
      (update_status ac s S).management_ip = s.management_ip ∧
      (update_status ac s S).device_save_count = s.device_save_count) ∧
    (ac = false → (update_status ac s S).management_ip = s.management_ip) ∧
    (s.status ≠ .critical →
      (update_status true s .critical).management_ip = none) := by
  refine ⟨fun h => update_status_noop ac s .critical h, fun h => ?_,
    fun h => ?_, fun h => ?_⟩
  · by_cases hst : s.status = S
    · simp [update_status_noop ac s S hst]
    · simp only [update_status, if_neg hst]
      rw [if_neg] <;> simp_all
  · subst h
    by_cases hst : s.status = S
    · simp [update_status_noop false s S hst]
    · simp only [update_status, if_neg hst]
      rw [if_neg]
      all_goals simp
  · simp [update_status, h]

theorem update_status_management_ip_frame_witness :
    (update_status true ⟨.ok, some "10.0.0.1", 3, 1, [.ok]⟩
      .critical).management_ip = none :=
  (update_status_management_ip_frame true ⟨.ok, some "10.0.0.1", 3, 1, [.ok]⟩
    .ok).2.2.2 (by decide)

/-- Claim C4: availability writes are best-effort (the two recorders return
successfully whatever the write does), a failure of any of the three
primary reconstruction queries propagates, and a failure of the secondary
uptime computation is downgraded to a `none` uptime on an otherwise
complete result. -/
theorem availability_write_swallow_read_propagate
    (writeFn : WritePoint → Except TsdbError Unit)
    (device_id ifname : String) (status : Status) (is_up : Bool)
    (eventsQ latestQ : Except TsdbError (List Point))
    (uptimeQ : Except TsdbError ℚ) (l1 l2 l3 : List Point)
    (s e : ℚ) (ov : Option Bool) (err : TsdbError) (h : s < e) :
    (record_device_availability_ts writeFn device_id status = .ok ()) ∧
    (record_wan_link_status writeFn device_id ifname is_up = .ok ()) ∧
    (get_device_availability_e (.error err) eventsQ latestQ uptimeQ
      s e ov = .error err) ∧
    (get_device_availability_e (.ok l1) (.error err) latestQ uptimeQ
      s e ov = .error err) ∧
    (get_device_availability_e (.ok l1) (.ok l2) (.error err) uptimeQ
      s e ov = .error err) ∧
    (get_device_availability_e (.ok l1) (.ok l2) (.ok l3) (.error err)
      s e ov =
      .ok (build_avail_result l1 l2 l3 s e ov none)) := by
    have hne : ¬ s ≥ e := not_le.mpr h
    refine ⟨?_, ?_, ?_, ?_, ?_, ?_⟩
    · cases hw : writeFn (availability_point device_id status) <;>
        simp [record_device_availability_ts, hw]
    · cases hw : writeFn (wan_point device_id ifname is_up) <;>
        simp [record_wan_link_status, hw]
    all_goals
      simp only [get_device_availability_e, if_neg hne]
      rfl

theorem availability_write_swallow_read_propagate_witness :
    (record_device_availability_ts (fun _ => .error ⟨"tsdb down"⟩) "d1"
      .critical = .ok ()) ∧
    (record_wan_link_status (fun _ => .error ⟨"tsdb down"⟩) "d1" "eth0"
      true = .ok ()) ∧
    (get_device_availability_e (.error ⟨"tsdb down"⟩) (.ok []) (.ok [])
      (.ok 0) 0 10 none = .error ⟨"tsdb down"⟩) ∧
    (get_device_availability_e (.ok []) (.error ⟨"tsdb down"⟩) (.ok [])
      (.ok 0) 0 10 none = .error ⟨"tsdb down"⟩) ∧
    (get_device_availability_e (.ok []) (.ok []) (.error ⟨"tsdb down"⟩)
      (.ok 0) 0 10 none = .error ⟨"tsdb down"⟩) ∧
    (get_device_availability_e (.ok []) (.ok []) (.ok [])
      (.error ⟨"tsdb down"⟩) 0 10 none =
      .ok (build_avail_result [] [] [] 0 10 none none)) :=
  availability_write_swallow_read_propagate (fun _ => .error ⟨"tsdb down"⟩)
    "d1" "eth0" .critical true (.ok []) (.ok []) (.ok 0) [] [] []
    0 10 none ⟨"tsdb down"⟩ (by norm_num)

/-- Claim C8: a window with `start >= end` yields the well-defined empty result
(no events, no timeline, no friendly intervals, uptime `0.0`) regardless
of the outcome of any time-series query, and `_uptime_pct_from_events`
returns `0.0` for any store contents. -/
theorem empty_window_well_defined
    (prevQ eventsQ latestQ : Except TsdbError (List Point))
    (uptimeQ : Except TsdbError ℚ) (db : List Point) (s e : ℚ)
    (n : Nat) (ov : Option Bool) (h : e ≤ s) :
    (get_device_availability_e prevQ eventsQ latestQ uptimeQ s e ov =
      .ok emptyAvailResult) ∧
    (get_device_availability db s e n ov = emptyAvailResult) ∧
    emptyAvailResult.events = [] ∧
    emptyAvailResult.timeline = [] ∧
    emptyAvailResult.friendly_intervals = [] ∧
    emptyAvailResult.uptime_percent = some 0 ∧
    (uptime_pct_from_events db s e = 0) := by
  have hge : s ≥ e := h
  exact ⟨by simp [get_device_availability_e, hge],
    by simp [get_device_availability, hge], rfl, rfl, rfl, rfl,
    by simp [uptime_pct_from_events, hge]⟩

theorem empty_window_well_defined_witness :
    (get_device_availability_e (.error ⟨"tsdb down"⟩) (.error ⟨"tsdb down"⟩)
      (.error ⟨"tsdb down"⟩) (.error ⟨"tsdb down"⟩) 5 5 (some true) =
      .ok emptyAvailResult) ∧
    (get_device_availability [⟨1, 1⟩] 5 5 500 (some true) =
      emptyAvailResult) ∧
    emptyAvailResult.events = [] ∧
    emptyAvailResult.timeline = [] ∧
    emptyAvailResult.friendly_intervals = [] ∧
    emptyAvailResult.uptime_percent = some 0 ∧
    (uptime_pct_from_events [⟨1, 1⟩] 5 5 = 0) :=
  empty_window_well_defined (.error ⟨"tsdb down"⟩) (.error ⟨"tsdb down"⟩)
    (.error ⟨"tsdb down"⟩) (.error ⟨"tsdb down"⟩) [⟨1, 1⟩] 5 5 500
    (some true) (by norm_num)

/-- Claim C10: the uptime percentage of `get_device_availability` does not
depend on `max_events` (the percentage is recomputed from an unlimited
ascending query), even though `max_events` can change the events list, as
the concrete store below shows. -/
theorem uptime_pct_independent_of_max_events (db : List Point) (s e : ℚ)
    (n₁ n₂ : Nat) (ov : Option Bool) :
    ((get_device_availability db s e n₁ ov).uptime_percent =
      (get_device_availability db s e n₂ ov).uptime_percent) ∧
    ((get_device_availability [⟨1, 1⟩, ⟨2, 0⟩, ⟨3, 1⟩] 0 10 1 none).events ≠
      (get_device_availability [⟨1, 1⟩, ⟨2, 0⟩, ⟨3, 1⟩] 0 10 3 none).events) := by
  constructor
  · by_cases h : s ≥ e <;>
      simp [get_device_availability, h, build_avail_result]
  · decide

theorem uptime_pct_independent_of_max_events_witness :
    ((get_device_availability [⟨1, 1⟩, ⟨2, 0⟩, ⟨3, 1⟩] 0 10 1
        none).uptime_percent =
      (get_device_availability [⟨1, 1⟩, ⟨2, 0⟩, ⟨3, 1⟩] 0 10 3
        none).uptime_percent) ∧
    ((get_device_availability [⟨1, 1⟩, ⟨2, 0⟩, ⟨3, 1⟩] 0 10 1 none).events ≠
      (get_device_availability [⟨1, 1⟩, ⟨2, 0⟩, ⟨3, 1⟩] 0 10 3 none).events) :=
  uptime_pct_independent_of_max_events [⟨1, 1⟩, ⟨2, 0⟩, ⟨3, 1⟩] 0 10 1 3 none

/-- Claim C5: the flip candidates of `get_device_availability` are the most
recent `max_events` in-window points — a descending limited query whose
reversal is exactly the ascending in-window list with its oldest points
dropped — and, walking them ascending from the start state, a `Flip` is
emitted exactly when a candidate's `up` differs from the running value
(equal-valued candidates emit nothing and leave the state unchanged). -/
theorem flip_candidates_truncation_and_walk (db : List Point) (s e : ℚ)
    (n : Nat) (ov : Option Bool) (cur : Nat) (p : Point)
    (rest : List Point) (h : s < e) :
    ((queryDesc db s e n).reverse =
      (inWindow db s e).drop ((inWindow db s e).length - n)) ∧
    ((get_device_availability db s e n ov).events =
      ⟨s, decide (cur_up_start db s = 1), true, "Boundary"⟩ ::
        (flip_events (cur_up_start db s)
          ((inWindow db s e).drop ((inWindow db s e).length - n))).1 ++
        [⟨e, avail_end_status db s e ov, true, "Boundary"⟩]) ∧
    (p.up = cur → flip_events cur (p :: rest) = flip_events cur rest) ∧
    (p.up ≠ cur → flip_events cur (p :: rest) =
      (⟨p.time, decide (p.up = 1), false, "Flip"⟩ ::
        (flip_events p.up rest).1, (flip_events p.up rest).2)) := by
  have hq : (queryDesc db s e n).reverse =
      (inWindow db s e).drop ((inWindow db s e).length - n) :=
    reverse_take_reverse _ n
  refine ⟨hq, ?_, fun hp => by simp [flip_events, hp],
    fun hp => by simp [flip_events, hp]⟩
  rw [get_device_availability_events_eq db s e n ov (not_le.mpr h), hq]

theorem flip_candidates_truncation_and_walk_witness :
    (queryDesc [⟨1, 1⟩, ⟨2, 0⟩, ⟨3, 1⟩] 0 10 2).reverse =
      (inWindow [⟨1, 1⟩, ⟨2, 0⟩, ⟨3, 1⟩] 0 10).drop
        ((inWindow [⟨1, 1⟩, ⟨2, 0⟩, ⟨3, 1⟩] 0 10).length - 2) :=
  (flip_candidates_truncation_and_walk [⟨1, 1⟩, ⟨2, 0⟩, ⟨3, 1⟩] 0 10 2 none
    0 ⟨5, 1⟩ [] (by norm_num)).1

/-- Claim C6: over a time-ordered store, `_uptime_pct_from_events` returns a
value of the form `k / 100` with `0 ≤ k ≤ 10000` (i.e. a percentage in
`[0, 100]` rounded to two decimals), and a zero-or-negative-duration
window yields `0.0`. -/
theorem uptime_pct_bounds_rounded (db : List Point) (s e : ℚ)
    (hs : DbSorted db) :
    (e ≤ s → uptime_pct_from_events db s e = 0) ∧
    (∃ k : ℤ, uptime_pct_from_events db s e = (k : ℚ) / 100 ∧
      0 ≤ k ∧ k ≤ 10000) := by
  by_cases hse : s ≥ e
  · exact ⟨fun _ => by simp [uptime_pct_from_events, hse],
      ⟨0, by simp [uptime_pct_from_events, hse], le_refl _, by norm_num⟩⟩
  · have hlt : s < e := not_le.mp hse
    refine ⟨fun hc => absurd hlt (not_lt.mpr hc), ?_⟩
    have hmem : ∀ p ∈ inWindow db s e, s ≤ p.time ∧ p.time < e := by
      intro p hp
      exact of_decide_eq_true (List.mem_filter.mp hp).2
    have hpw : List.Pairwise (fun a b : Point => a.time ≤ b.time)
        (inWindow db s e) :=
      ((List.Pairwise.sublist (List.filter_sublist db) hs).imp le_of_lt)
    obtain ⟨i1, i2, i3, i4⟩ :=
      uptime_loop_bounds (inWindow db s e) (cur_up_start db s) s 0
        (fun p hp => (hmem p hp).1) hpw
    set r := uptime_loop (cur_up_start db s) s 0 (inWindow db s e) with hr
    have hrt : r.2.1 < e := by
      rcases i4 with h4 | ⟨p, hp, hpt⟩
      · rw [h4]; exact hlt
      · rw [hpt]; exact (hmem p hp).2
    have hup0 : 0 ≤ (if r.1 = 1 then r.2.2 + (e - r.2.1) else r.2.2) := by
      split
      · linarith
      · linarith
    have hup1 : (if r.1 = 1 then r.2.2 + (e - r.2.1) else r.2.2) ≤ e - s := by
      split
      · linarith
      · linarith
    set up := if r.1 = 1 then r.2.2 + (e - r.2.1) else r.2.2 with hup
    have htot : (0 : ℚ) < e - s := by linarith
    have hq0 : 0 ≤ up / (e - s) * 100 :=
      mul_nonneg (div_nonneg hup0 htot.le) (by norm_num)
    have hq1 : up / (e - s) * 100 ≤ 100 := by
      have : up / (e - s) ≤ 1 := (div_le_one htot).mpr hup1
      linarith
    have hpct : uptime_pct_from_events db s e =
        round2 (up / (e - s) * 100) := by
      simp only [uptime_pct_from_events, if_neg hse, ← hr, ← hup,
        if_pos htot]
    refine ⟨round (up / (e - s) * 100 * 100), ?_, ?_, ?_⟩
    · rw [hpct, round2]
    · rw [round_eq]
      rw [Int.le_floor]
      push_cast
      linarith
    · rw [round_eq]
      have : ⌊up / (e - s) * 100 * 100 + 1 / 2⌋ < 10001 := by
        rw [Int.floor_lt]
        push_cast
        linarith
      linarith

theorem uptime_pct_bounds_rounded_witness :
    ((10 : ℚ) ≤ 0 → uptime_pct_from_events [⟨5, 1⟩] 0 10 = 0) ∧
    (∃ k : ℤ, uptime_pct_from_events [⟨5, 1⟩] 0 10 = (k : ℚ) / 100 ∧
      0 ≤ k ∧ k ≤ 10000) :=
  uptime_pct_bounds_rounded [⟨5, 1⟩] 0 10 (by simp [DbSorted])

/-- Claim C2 counterexample: with an empty store and `override_end_status='up'`
the timeline is a single down interval, so the last interval's status is
not the supplied override — the override only affects the synthetic end
boundary event. -/
theorem timeline_last_interval_ignores_override_cex :
    ((get_device_availability [] 0 10 500 (some true)).timeline =
      [⟨0, 10, false⟩]) ∧
    ¬ ((get_device_availability [] 0 10 500
      (some true)).timeline.getLast?.map TimelineInterval.status =
      some true) := by
  decide

/-- Claim C2 (amended): over a time-ordered store, for `start < end` and
`max_events ≥ 1` the timeline is a gapless non-overlapping cover of
`[start, end)`: consecutive intervals share endpoints, each interval has
`start ≤ stop`, the first interval starts at `start` with the
reconstructed start state, the last interval ends at `end` and carries the
last recorded value strictly before `end` (defaulting to the start state)
— for every `override_end_status` — and with no flip inside the window
the timeline is the single interval `[start, end)` with the start state. -/
theorem get_device_availability_timeline_partition (db : List Point)
    (s e : ℚ) (n : Nat) (ov : Option Bool)
    (hs : DbSorted db) (hlt : s < e) (hn : 1 ≤ n) :
    List.Chain' (fun a b => a.stop = b.start)
      (get_device_availability db s e n ov).timeline ∧
    (∀ iv ∈ (get_device_availability db s e n ov).timeline,
      iv.start ≤ iv.stop) ∧
    ((get_device_availability db s e n ov).timeline.head?.map
      TimelineInterval.start = some s) ∧
    ((get_device_availability db s e n ov).timeline.getLast?.map
      TimelineInterval.stop = some e) ∧
    ((get_device_availability db s e n ov).timeline.head?.map
      TimelineInterval.status = some (decide (cur_up_start db s = 1))) ∧
    ((get_device_availability db s e n ov).timeline.getLast?.map
      TimelineInterval.status =
      some (decide (end_up_tsdb db e (cur_up_start db s) = 1))) ∧
    ((∀ p ∈ inWindow db s e, p.up = cur_up_start db s) →
      (get_device_availability db s e n ov).timeline =
        [⟨s, e, decide (cur_up_start db s = 1)⟩]) := by
  have hne : ¬ s ≥ e := not_le.mpr hlt
  rw [get_device_availability_timeline_eq db s e n ov hne,
    get_device_availability_events_eq db s e n ov hne]
  set cur := cur_up_start db s with hcur
  set rows := (queryDesc db s e n).reverse with hrows
  set flips := (flip_events cur rows).1 with hflips
  have hqd : rows = (inWindow db s e).drop ((inWindow db s e).length - n) := by
    rw [hrows]
    exact reverse_take_reverse _ n
  have hrowmem : ∀ r ∈ rows, s ≤ r.time ∧ r.time < e := by
    intro r hr
    rw [hqd] at hr
    exact of_decide_eq_true
      (List.mem_filter.mp (List.drop_subset _ _ hr)).2
  have hrowpw : List.Pairwise (fun a b : Point => a.time < b.time) rows := by
    rw [hqd]
    exact List.Pairwise.sublist
      ((List.drop_sublist _ _).trans (List.filter_sublist db)) hs
  have hflipsub := flip_events_times_sublist rows cur
  rw [← hflips] at hflipsub
  have hflipmem : ∀ f ∈ flips, s ≤ f.time ∧ f.time < e := by
    intro f hf
    obtain ⟨r, hr, hrt⟩ :=
      List.mem_map.mp (hflipsub.subset (List.mem_map_of_mem _ hf))
    rw [← hrt]
    exact hrowmem r hr
  have hflippw :
      List.Pairwise (fun a b : AvailEvent => a.time < b.time) flips :=
    List.pairwise_map.mp
      (List.Pairwise.sublist hflipsub (List.pairwise_map.mpr hrowpw))
  have hpwev : List.Pairwise (fun a b : AvailEvent => a.time ≤ b.time)
      ((⟨s, decide (cur = 1), true, "Boundary"⟩ : AvailEvent) ::
        (flips ++ [⟨e, avail_end_status db s e ov, true, "Boundary"⟩])) := by
    rw [List.pairwise_cons]
    constructor
    · intro b hb
      rcases List.mem_append.mp hb with hbf | hbe
      · exact (hflipmem b hbf).1
      · rw [List.mem_singleton] at hbe
        rw [hbe]
        exact le_of_lt hlt
    · rw [List.pairwise_append]
      refine ⟨hflippw.imp le_of_lt, List.pairwise_singleton _ _, ?_⟩
      intro a ha b hb
      rw [List.mem_singleton] at hb
      rw [hb]
      exact le_of_lt (hflipmem a ha).2
  have hfin : (flip_events cur rows).2 = end_up_tsdb db e cur := by
    rw [hcur, hrows]
    exact fin_eq_end_up db s e n hs hlt hn
  refine ⟨build_timeline_chain _,
    build_timeline_start_le_stop _ hpwev.chain', ?_, ?_, ?_, ?_, ?_⟩
  · cases hfl : flips with
    | nil => simp [hfl, build_timeline]
    | cons f fs => simp [hfl, build_timeline]
  · rw [build_timeline_getLast]
    simp
  · cases hfl : flips with
    | nil => simp [hfl, build_timeline]
    | cons f fs => simp [hfl, build_timeline]
  · rw [build_timeline_getLast]
    cases hfl : flips with
    | nil =>
      have h0 : (flip_events cur rows).2 = cur :=
        flip_events_fst_nil rows cur (by rw [← hflips]; exact hfl)
      have hcu : end_up_tsdb db e cur = cur := by
        rw [← hfin]
        exact h0
      simp [hfl, hcu]
    | cons f fs =>
      have hne2 : (flip_events cur rows).1 ≠ [] := by
        rw [← hflips, hfl]
        simp
      have hls := flip_events_last_status rows cur hne2
      rw [← hflips, hfl] at hls
      cases hgl : (f :: fs).getLast? with
      | none => simp at hgl
      | some x =>
        rw [hgl] at hls
        have hxs : x.status = decide ((flip_events cur rows).2 = 1) := by
          simpa using hls
        simp [hfl, List.getLastD_eq_getLast?, hgl, hxs, hfin]
  · intro hconst
    have hflnil : flips = [] := by
      rw [hflips,
        flip_events_const rows cur (fun p hp => by
          rw [hqd] at hp
          exact hconst p (List.drop_subset _ _ hp))]
    rw [hflnil]
    simp [build_timeline]

theorem get_device_availability_timeline_partition_witness :
    List.Chain' (fun a b => a.stop = b.start)
      (get_device_availability [⟨1, 1⟩, ⟨2, 0⟩] 0 10 500 (some true)).timeline ∧
    (∀ iv ∈ (get_device_availability [⟨1, 1⟩, ⟨2, 0⟩] 0 10 500
        (some true)).timeline, iv.start ≤ iv.stop) ∧
    ((get_device_availability [⟨1, 1⟩, ⟨2, 0⟩] 0 10 500
        (some true)).timeline.head?.map TimelineInterval.start = some 0) ∧
    ((get_device_availability [⟨1, 1⟩, ⟨2, 0⟩] 0 10 500
        (some true)).timeline.getLast?.map TimelineInterval.stop = some 10) ∧
    ((get_device_availability [⟨1, 1⟩, ⟨2, 0⟩] 0 10 500
        (some true)).timeline.head?.map TimelineInterval.status =
      some (decide (cur_up_start [⟨1, 1⟩, ⟨2, 0⟩] 0 = 1))) ∧
    ((get_device_availability [⟨1, 1⟩, ⟨2, 0⟩] 0 10 500
        (some true)).timeline.getLast?.map TimelineInterval.status =
      some (decide (end_up_tsdb [⟨1, 1⟩, ⟨2, 0⟩] 10
        (cur_up_start [⟨1, 1⟩, ⟨2, 0⟩] 0) = 1))) ∧
    ((∀ p ∈ inWindow [⟨1, 1⟩, ⟨2, 0⟩] 0 10,
        p.up = cur_up_start [⟨1, 1⟩, ⟨2, 0⟩] 0) →
      (get_device_availability [⟨1, 1⟩, ⟨2, 0⟩] 0 10 500 (some true)).timeline =
        [⟨0, 10, decide (cur_up_start [⟨1, 1⟩, ⟨2, 0⟩] 0 = 1)⟩]) :=
  get_device_availability_timeline_partition [⟨1, 1⟩, ⟨2, 0⟩] 0 10 500
    (some true) (by simp [DbSorted]) (by norm_num) (by norm_num)

end OpenwispMonitoring
